import Mathlib

/-!
Shallow embedding of the `passport` chaincode
(`src/passport/chaincode-go/chaincode/smartcontract.go`), a Hyperledger
Fabric smart contract managing `Person` records in a key-value world
state, together with theorems settling the specification's claims.

Modelling choices, all taken from the source and the platform interface
the spec describes (§2 of the spec: `putState`, `getState`,
`deleteState`, `getStateByRange`, `getHistoryForKey`):

* A stored value is a JSON object, modelled as an ordered association
  list of string keys to JSON values (`Json`).  The contract only ever
  stores `json.Marshal` output of a `Person`, which is an object whose
  values are strings and one boolean, so `JVal` has exactly those two
  constructors.  Key order in the list is the byte order of the keys on
  the wire (Go's `json.Marshal` emits struct fields in declaration
  order).
* The world state is an association list `List (String × Json)` with
  unique keys; `PutState` overwrites the existing entry for the key or
  appends a new one (Fabric's `PutState` is an upsert — `UpdatePerson`
  in the source relies on this to overwrite), `DelState` removes the
  key.  `GetStateByRange("", "")` iterates all entries in the platform's
  internal key order, which the spec leaves unspecified; the model uses
  the list order.
* Each state-changing transaction carries a transaction id and a
  timestamp (`TxMeta`).  Every `PutState`/`DelState` appends an entry to
  the per-key change log, as the platform does; a deletion entry has no
  value (Fabric's `KeyModification.Value` is nil for deletes, and
  `IsDelete` is set).  `GetHistoryForKey` returns the change log oldest
  to newest (spec §2: "chronological iterator").
* Go errors are modelled as `Except String`; the error strings are the
  `fmt.Errorf` messages of the source.  Platform read/write failures
  (network faults) are outside the model, so `GetState`/`PutState`
  never fail; `json.Marshal` of a `Person` cannot fail in Go.
-/

/-- Scalar JSON value: the `Person` wire shape only contains strings and
one boolean. -/
inductive JVal where
  | str : String → JVal
  | bool : Bool → JVal
deriving DecidableEq, Repr

/-- A JSON object as an ordered association list, the model of the bytes
`json.Marshal` produces: the list order is the key order on the wire. -/
abbrev Json := List (String × JVal)

/-- Person mirrors the Go struct `Person` field for field, in declaration
order (ID, Serial, Name, Surname, City, Address, Phone, Married). -/
structure Person where
  ID      : String
  Serial  : String
  Name    : String
  Surname : String
  City    : String
  Address : String
  Phone   : String
  Married : Bool
deriving DecidableEq, Repr

/-- Model of `json.Marshal` on `Person`: Go emits the struct fields in
declaration order under their `json:"..."` tags. -/
def marshalPerson (p : Person) : Json :=
  [("id", .str p.ID), ("passport", .str p.Serial), ("name", .str p.Name),
   ("surname", .str p.Surname), ("city", .str p.City), ("address", .str p.Address),
   ("phone", .str p.Phone), ("married", .bool p.Married)]

/-- Field lookup as `json.Unmarshal` performs it: when a key occurs more
than once the last occurrence wins (the marshalled objects of this
contract never duplicate keys). -/
def jsonLookup (j : Json) (k : String) : Option JVal :=
  (j.reverse.find? (fun kv => kv.1 == k)).map (fun kv => kv.2)

/-- Decoding a string field: a missing key leaves the Go struct field at
its zero value `""`; a value of the wrong type is an unmarshal error. -/
def jStr : Option JVal → Option String
  | none => some ""
  | some (.str s) => some s
  | some (.bool _) => none

/-- Decoding the boolean field: a missing key leaves the zero value
`false`; a value of the wrong type is an unmarshal error. -/
def jBool : Option JVal → Option Bool
  | none => some false
  | some (.bool b) => some b
  | some (.str _) => none

/-- Model of `json.Unmarshal` of an object into a `Person`: each field is
read by its tag, unknown keys are ignored, type mismatches fail. -/
def unmarshalPerson (j : Json) : Option Person := do
  let id ← jStr (jsonLookup j "id")
  let serial ← jStr (jsonLookup j "passport")
  let name ← jStr (jsonLookup j "name")
  let surname ← jStr (jsonLookup j "surname")
  let city ← jStr (jsonLookup j "city")
  let address ← jStr (jsonLookup j "address")
  let phone ← jStr (jsonLookup j "phone")
  let married ← jBool (jsonLookup j "married")
  pure ⟨id, serial, name, surname, city, address, phone, married⟩

/-- Transaction metadata the platform attaches to each state-changing
transaction: transaction id and platform-clock timestamp. -/
structure TxMeta where
  txId : String
  timestamp : Nat
deriving DecidableEq, Repr

/-- One entry of the platform's per-key change log, the
`queryresult.KeyModification` of Fabric: for a deletion `isDelete` is
set and there is no value. -/
structure HistEntry where
  txId : String
  timestamp : Nat
  value : Option Json
  isDelete : Bool
deriving DecidableEq, Repr

/-- World state and per-key change logs of the ledger platform, the part
of the stub the contract touches. -/
structure Stub where
  world : List (String × Json)
  hist : List (String × List HistEntry)
deriving Repr

/-- The empty world state: nothing stored, every change log empty. -/
def emptyStub : Stub := ⟨[], []⟩

/-- Model of `GetState`: the value bytes stored under a key, or nothing. -/
def getState (st : Stub) (k : String) : Option Json :=
  (st.world.find? (fun kv => kv.1 == k)).map (fun kv => kv.2)

/-- Upsert into the world-state association list: replace the entry for
the key when present, append otherwise. -/
def putWorld : List (String × Json) → String → Json → List (String × Json)
  | [], k, v => [(k, v)]
  | (k', v') :: rest, k, v =>
    if k = k' then (k, v) :: rest else (k', v') :: putWorld rest k v

/-- Removing a key from the world-state association list. -/
def delWorld (w : List (String × Json)) (k : String) : List (String × Json) :=
  w.filter (fun kv => kv.1 ≠ k)

/-- The change log of a key (empty when the key was never touched). -/
def histOf (h : List (String × List HistEntry)) (k : String) : List HistEntry :=
  ((h.find? (fun kv => kv.1 == k)).map (fun kv => kv.2)).getD []

/-- Appending an entry to a key's change log. -/
def histAppend : List (String × List HistEntry) → String → HistEntry →
    List (String × List HistEntry)
  | [], k, e => [(k, [e])]
  | (k', es) :: rest, k, e =>
    if k = k' then (k', es ++ [e]) :: rest else (k', es) :: histAppend rest k e

/-- Model of `PutState` inside a transaction: overwrites the world-state
value and appends a (non-delete) entry to the key's change log. -/
def putState (st : Stub) (tx : TxMeta) (k : String) (v : Json) : Stub :=
  { world := putWorld st.world k v,
    hist := histAppend st.hist k ⟨tx.txId, tx.timestamp, some v, false⟩ }

/-- Model of `DelState` inside a transaction: removes the key and appends
a deletion entry (no value) to the key's change log. -/
def delState (st : Stub) (tx : TxMeta) (k : String) : Stub :=
  { world := delWorld st.world k,
    hist := histAppend st.hist k ⟨tx.txId, tx.timestamp, none, true⟩ }

/-- The two seed records of `InitLedger`, verbatim from the source. -/
def person0 : Person :=
  ⟨"person0", "0510 228148", "Igor", "Nikolaev", "Moscow",
   "Likhachevsky proezd 2", "88005553535", true⟩

/-- Second seed record of `InitLedger`, verbatim from the source. -/
def person1 : Person :=
  ⟨"person1", "1020 123654", "Matvei", "Stepanov", "Dolgoprudny",
   "Universitetskaya 11", "88005553535", false⟩

/-- InitLedger: marshals and `PutState`s the two seed records, with no
existence check; `json.Marshal` cannot fail here and `PutState` is an
upsert, so the whole call always succeeds. -/
def InitLedger (st : Stub) (tx : TxMeta) : Except String Stub :=
  .ok (putState (putState st tx person0.ID (marshalPerson person0))
        tx person1.ID (marshalPerson person1))

/-- PersonExists: `GetState` and compare the bytes against nil. -/
def PersonExists (st : Stub) (id : String) : Bool :=
  (getState st id).isSome

/-- CreatePerson: fails when the id exists, otherwise marshals the new
record and stores it under the id. -/
def CreatePerson (st : Stub) (tx : TxMeta) (id serial name surname city
    address phone : String) (married : Bool) : Except String Stub :=
  if PersonExists st id then
    .error ("the person " ++ id ++ " already exists")
  else
    .ok (putState st tx id
      (marshalPerson ⟨id, serial, name, surname, city, address, phone, married⟩))

/-- ReadPerson: fails when the id is absent, otherwise unmarshals the
stored bytes. -/
def ReadPerson (st : Stub) (id : String) : Except String Person :=
  match getState st id with
  | none => .error ("the person " ++ id ++ " does not exist")
  | some j =>
    match unmarshalPerson j with
    | none => .error "json: cannot unmarshal value into Person"
    | some p => .ok p

/-- UpdatePerson: fails when the id is absent, otherwise overwrites the
stored value with the newly constructed record. -/
def UpdatePerson (st : Stub) (tx : TxMeta) (id serial name surname city
    address phone : String) (married : Bool) : Except String Stub :=
  if PersonExists st id then
    .ok (putState st tx id
      (marshalPerson ⟨id, serial, name, surname, city, address, phone, married⟩))
  else
    .error ("the person " ++ id ++ " does not exist")

/-- DeletePerson: fails when the id is absent, otherwise removes the key. -/
def DeletePerson (st : Stub) (tx : TxMeta) (id : String) : Except String Stub :=
  if PersonExists st id then
    .ok (delState st tx id)
  else
    .error ("the person " ++ id ++ " does not exist")

/-- GetAllPersons: full range scan (`GetStateByRange("", "")`) over the
world state, unmarshalling every value; an unmarshal failure aborts. -/
def GetAllPersons (st : Stub) : Except String (List Person) :=
  match st.world.mapM (fun kv => unmarshalPerson kv.2) with
  | none => .error "json: cannot unmarshal value into Person"
  | some ps => .ok ps

/-- Update mirrors the Go struct `Update` returned by `GetPersonHistory`:
transaction id, timestamp and the record data.  The `Data` field is a
`Person`, not an optional one. -/
structure Update where
  Tx : String
  Timestamp : Nat
  Data : Person
deriving DecidableEq, Repr

/-- One iteration of the `GetPersonHistory` loop:
`json.Unmarshal(response.Value, &person)` is called unconditionally, and
for a deletion entry the value bytes are nil, which `json.Unmarshal`
rejects with "unexpected end of JSON input". -/
def histEntryToUpdate (e : HistEntry) : Except String Update :=
  match e.value with
  | none => .error "unexpected end of JSON input"
  | some j =>
    match unmarshalPerson j with
    | none => .error "json: cannot unmarshal value into Person"
    | some p => .ok ⟨e.txId, e.timestamp, p⟩

/-- GetPersonHistory: fails when the id does not presently exist,
otherwise converts the key's change log, oldest to newest, failing on
the first entry that does not unmarshal. -/
def GetPersonHistory (st : Stub) (id : String) : Except String (List Update) :=
  if PersonExists st id then
    (histOf st.hist id).mapM histEntryToUpdate
  else
    .error ("the person " ++ id ++ " does not exist")

/-- The state after a contract call: the new stub on success; on failure
the transaction is not committed and the world state is untouched. -/
def resState (st : Stub) : Except String Stub → Stub
  | .ok st' => st'
  | .error _ => st

/-! Basic lemmas about the stub primitives. -/

theorem str_beq_true {a b : String} (h : a = b) : (a == b) = true := by
  simp [h]

theorem str_beq_false {a b : String} (h : ¬ a = b) : (a == b) = false := by
  simpa using h

@[simp]
theorem unmarshal_marshal (p : Person) : unmarshalPerson (marshalPerson p) = some p := rfl

theorem find?_putWorld (w : List (String × Json)) (k k' : String) (v : Json) :
    (putWorld w k v).find? (fun kv => kv.1 == k') =
      if k' = k then some (k, v) else w.find? (fun kv => kv.1 == k') := by
  induction w with
  | nil =>
    by_cases h : k' = k
    · subst h
      simp [putWorld, List.find?, str_beq_true rfl]
    · have hf := str_beq_false (fun hh => h hh.symm)
      simp [putWorld, List.find?, hf, h]
  | cons a rest ih =>
    obtain ⟨ka, va⟩ := a
    simp only [putWorld]
    by_cases hka : k = ka
    · subst hka
      by_cases h : k' = k
      · subst h
        simp [List.find?, str_beq_true rfl]
      · have hf := str_beq_false (fun hh => h hh.symm)
        simp [List.find?, hf, h]
    · rw [if_neg hka]
      by_cases ha : ka = k'
      · subst ha
        have h2 : ¬ ka = k := fun hh => hka hh.symm
        simp [List.find?, str_beq_true rfl, h2]
      · have hf := str_beq_false ha
        simp [List.find?, hf, ih]

theorem find?_delWorld (w : List (String × Json)) (k k' : String) :
    (delWorld w k).find? (fun kv => kv.1 == k') =
      if k' = k then none else w.find? (fun kv => kv.1 == k') := by
  induction w with
  | nil => by_cases h : k' = k <;> simp [delWorld, List.find?, h]
  | cons a rest ih =>
    obtain ⟨ka, va⟩ := a
    by_cases hka : ka = k
    · subst hka
      have hstep : delWorld ((ka, va) :: rest) ka = delWorld rest ka := by
        simp [delWorld]
      by_cases h : k' = ka
      · subst h
        rw [hstep, ih, if_pos rfl, if_pos rfl]
      · rw [hstep, ih, if_neg h, if_neg h, List.find?]
        rw [str_beq_false (fun hh => h hh.symm)]
    · have hstep : delWorld ((ka, va) :: rest) k = (ka, va) :: delWorld rest k := by
        simp [delWorld, hka]
      by_cases ha : ka = k'
      · subst ha
        have h2 : ¬ ka = k := hka
        rw [hstep, if_neg h2, List.find?, str_beq_true rfl, List.find?, str_beq_true rfl]
      · have hf := str_beq_false ha
        rw [hstep, List.find?, hf, ih, List.find?, hf]

theorem histOf_histAppend_same (h : List (String × List HistEntry)) (k : String)
    (e : HistEntry) : histOf (histAppend h k e) k = histOf h k ++ [e] := by
  induction h with
  | nil => simp [histAppend, histOf, List.find?, str_beq_true rfl]
  | cons a rest ih =>
    obtain ⟨ka, es⟩ := a
    by_cases hka : k = ka
    · subst hka
      simp [histAppend, histOf, List.find?, str_beq_true rfl]
    · have hf := str_beq_false (fun hh => hka hh.symm)
      simp only [histAppend]
      rw [if_neg hka]
      simp only [histOf, List.find?, hf] at ih ⊢
      exact ih

theorem histOf_histAppend_ne (h : List (String × List HistEntry)) (k k' : String)
    (e : HistEntry) (hne : k' ≠ k) : histOf (histAppend h k e) k' = histOf h k' := by
  induction h with
  | nil =>
    have hf := str_beq_false (fun hh => hne hh.symm)
    simp [histAppend, histOf, List.find?, hf]
  | cons a rest ih =>
    obtain ⟨ka, es⟩ := a
    by_cases hka : k = ka
    · subst hka
      have hf := str_beq_false (fun hh => hne hh.symm)
      simp [histAppend, histOf, List.find?, hf]
    · simp only [histAppend]
      rw [if_neg hka]
      by_cases ha : ka = k'
      · subst ha
        simp [histOf, List.find?, str_beq_true rfl]
      · have hf := str_beq_false ha
        simp only [histOf, List.find?, hf] at ih ⊢
        exact ih

@[simp]
theorem getState_putState_same (st : Stub) (tx : TxMeta) (k : String) (v : Json) :
    getState (putState st tx k v) k = some v := by
  simp [getState, putState, find?_putWorld]

theorem getState_putState_ne (st : Stub) (tx : TxMeta) (k k' : String) (v : Json)
    (h : k' ≠ k) : getState (putState st tx k v) k' = getState st k' := by
  simp [getState, putState, find?_putWorld, h]

@[simp]
theorem getState_delState_same (st : Stub) (tx : TxMeta) (k : String) :
    getState (delState st tx k) k = none := by
  simp [getState, delState, find?_delWorld]

theorem getState_delState_ne (st : Stub) (tx : TxMeta) (k k' : String)
    (h : k' ≠ k) : getState (delState st tx k) k' = getState st k' := by
  simp [getState, delState, find?_delWorld, h]

@[simp]
theorem histOf_putState_same (st : Stub) (tx : TxMeta) (k : String) (v : Json) :
    histOf (putState st tx k v).hist k =
      histOf st.hist k ++ [⟨tx.txId, tx.timestamp, some v, false⟩] := by
  simp [putState, histOf_histAppend_same]

theorem histOf_putState_ne (st : Stub) (tx : TxMeta) (k k' : String) (v : Json)
    (h : k' ≠ k) : histOf (putState st tx k v).hist k' = histOf st.hist k' := by
  simp [putState, histOf_histAppend_ne _ _ _ _ h]

@[simp]
theorem histOf_delState_same (st : Stub) (tx : TxMeta) (k : String) :
    histOf (delState st tx k).hist k =
      histOf st.hist k ++ [⟨tx.txId, tx.timestamp, none, true⟩] := by
  simp [delState, histOf_histAppend_same]

@[simp]
theorem getState_emptyStub (k : String) : getState emptyStub k = none := rfl

@[simp]
theorem histOf_emptyStub (k : String) : histOf emptyStub.hist k = [] := rfl

/-! Theorems settling the claims. -/

/-- C1: on a state where `id` is absent, `CreatePerson` succeeds and an
immediate `ReadPerson` returns a record equal to the input; moreover
serializing any `Person` and deserializing it reproduces the original
value exactly (every field, including the boolean, survives). -/
theorem create_then_read (st : Stub) (tx : TxMeta)
    (id serial name surname city address phone : String) (married : Bool)
    (habs : getState st id = none) :
    (∀ p : Person, unmarshalPerson (marshalPerson p) = some p) ∧
    ∃ st',
      CreatePerson st tx id serial name surname city address phone married = .ok st' ∧
      ReadPerson st' id = .ok ⟨id, serial, name, surname, city, address, phone, married⟩ := by
  refine ⟨fun p => rfl,
    putState st tx id (marshalPerson ⟨id, serial, name, surname, city, address, phone, married⟩),
    ?_, ?_⟩
  · simp [CreatePerson, PersonExists, habs]
  · unfold ReadPerson
    rw [getState_putState_same]
    simp

/-- Witness for C1 at a concrete input on the empty world state. -/
theorem create_then_read_witness :
    getState emptyStub "p1" = none ∧
    ((∀ p : Person, unmarshalPerson (marshalPerson p) = some p) ∧
     ∃ st',
       CreatePerson emptyStub ⟨"tx0", 0⟩ "p1" "0001" "Ada" "Lovelace" "London"
         "Marylebone 1" "555" true = .ok st' ∧
       ReadPerson st' "p1" =
         .ok ⟨"p1", "0001", "Ada", "Lovelace", "London", "Marylebone 1", "555", true⟩) :=
  ⟨rfl, create_then_read emptyStub ⟨"tx0", 0⟩ "p1" "0001" "Ada" "Lovelace" "London"
    "Marylebone 1" "555" true rfl⟩

/-- C2: `CreatePerson` on an id that already exists fails with the
"already exists" error and mutates nothing: every key of the world state
reads exactly as before the call. -/
theorem create_duplicate_fails (st : Stub) (tx : TxMeta)
    (id serial name surname city address phone : String) (married : Bool)
    (hex : PersonExists st id = true) :
    CreatePerson st tx id serial name surname city address phone married =
      .error ("the person " ++ id ++ " already exists") ∧
    ∀ k, getState
        (resState st (CreatePerson st tx id serial name surname city address phone married)) k =
      getState st k := by
  constructor
  · simp [CreatePerson, hex]
  · intro k
    simp [CreatePerson, hex, resState]

/-- Witness for C2: creating `person0` again after `InitLedger`. -/
theorem create_duplicate_fails_witness :
    PersonExists (resState emptyStub (InitLedger emptyStub ⟨"t0", 0⟩)) "person0" = true ∧
    (CreatePerson (resState emptyStub (InitLedger emptyStub ⟨"t0", 0⟩)) ⟨"t1", 1⟩
        "person0" "s" "n" "sn" "c" "a" "ph" false =
      .error ("the person " ++ "person0" ++ " already exists") ∧
    ∀ k, getState
        (resState (resState emptyStub (InitLedger emptyStub ⟨"t0", 0⟩))
          (CreatePerson (resState emptyStub (InitLedger emptyStub ⟨"t0", 0⟩)) ⟨"t1", 1⟩
            "person0" "s" "n" "sn" "c" "a" "ph" false)) k =
      getState (resState emptyStub (InitLedger emptyStub ⟨"t0", 0⟩)) k) :=
  ⟨rfl, create_duplicate_fails (resState emptyStub (InitLedger emptyStub ⟨"t0", 0⟩))
    ⟨"t1", 1⟩ "person0" "s" "n" "sn" "c" "a" "ph" false rfl⟩

/-- C3: `UpdatePerson`, `DeletePerson` and `GetPersonHistory` on an id
absent from the world state each fail with the "does not exist" error
and leave every world-state key unchanged. -/
theorem notfound_ops (st : Stub) (tx : TxMeta)
    (id serial name surname city address phone : String) (married : Bool)
    (habs : getState st id = none) :
    UpdatePerson st tx id serial name surname city address phone married =
      .error ("the person " ++ id ++ " does not exist") ∧
    DeletePerson st tx id = .error ("the person " ++ id ++ " does not exist") ∧
    GetPersonHistory st id = .error ("the person " ++ id ++ " does not exist") ∧
    ∀ k, getState
          (resState st (UpdatePerson st tx id serial name surname city address phone married)) k =
        getState st k ∧
      getState (resState st (DeletePerson st tx id)) k = getState st k := by
  have hex : PersonExists st id = false := by simp [PersonExists, habs]
  refine ⟨?_, ?_, ?_, ?_⟩
  · simp [UpdatePerson, hex]
  · simp [DeletePerson, hex]
  · simp [GetPersonHistory, hex]
  · intro k
    constructor <;> simp [UpdatePerson, DeletePerson, hex, resState]

/-- Witness for C3: the three operations on id `"ghost"` over the empty
world state. -/
theorem notfound_ops_witness :
    getState emptyStub "ghost" = none ∧
    (UpdatePerson emptyStub ⟨"t0", 0⟩ "ghost" "s" "n" "sn" "c" "a" "ph" true =
      .error ("the person " ++ "ghost" ++ " does not exist") ∧
    DeletePerson emptyStub ⟨"t0", 0⟩ "ghost" =
      .error ("the person " ++ "ghost" ++ " does not exist") ∧
    GetPersonHistory emptyStub "ghost" =
      .error ("the person " ++ "ghost" ++ " does not exist") ∧
    ∀ k, getState
          (resState emptyStub (UpdatePerson emptyStub ⟨"t0", 0⟩ "ghost" "s" "n" "sn" "c" "a" "ph" true)) k =
        getState emptyStub k ∧
      getState (resState emptyStub (DeletePerson emptyStub ⟨"t0", 0⟩ "ghost")) k =
        getState emptyStub k) :=
  ⟨rfl, notfound_ops emptyStub ⟨"t0", 0⟩ "ghost" "s" "n" "sn" "c" "a" "ph" true rfl⟩

/-- C9: `CreatePerson`, `UpdatePerson` and `DeletePerson` never touch a
world-state key other than their `id` argument, whether the call
succeeds or fails. -/
theorem ops_frame (st : Stub) (tx : TxMeta)
    (id serial name surname city address phone : String) (married : Bool)
    (k : String) (hne : k ≠ id) :
    getState
        (resState st (CreatePerson st tx id serial name surname city address phone married)) k =
      getState st k ∧
    getState
        (resState st (UpdatePerson st tx id serial name surname city address phone married)) k =
      getState st k ∧
    getState (resState st (DeletePerson st tx id)) k = getState st k := by
  refine ⟨?_, ?_, ?_⟩
  · by_cases hex : PersonExists st id <;>
      simp [CreatePerson, hex, resState, getState_putState_ne _ _ _ _ _ hne]
  · by_cases hex : PersonExists st id <;>
      simp [UpdatePerson, hex, resState, getState_putState_ne _ _ _ _ _ hne]
  · by_cases hex : PersonExists st id <;>
      simp [DeletePerson, hex, resState, getState_delState_ne _ _ _ _ hne]

/-- Witness for C9: key `"other"` is untouched by the three operations on
id `"person0"` after `InitLedger`. -/
theorem ops_frame_witness :
    ("other" : String) ≠ "person0" ∧
    (getState
        (resState (resState emptyStub (InitLedger emptyStub ⟨"t0", 0⟩))
          (CreatePerson (resState emptyStub (InitLedger emptyStub ⟨"t0", 0⟩)) ⟨"t1", 1⟩
            "person0" "s" "n" "sn" "c" "a" "ph" false)) "other" =
      getState (resState emptyStub (InitLedger emptyStub ⟨"t0", 0⟩)) "other" ∧
    getState
        (resState (resState emptyStub (InitLedger emptyStub ⟨"t0", 0⟩))
          (UpdatePerson (resState emptyStub (InitLedger emptyStub ⟨"t0", 0⟩)) ⟨"t1", 1⟩
            "person0" "s" "n" "sn" "c" "a" "ph" false)) "other" =
      getState (resState emptyStub (InitLedger emptyStub ⟨"t0", 0⟩)) "other" ∧
    getState
        (resState (resState emptyStub (InitLedger emptyStub ⟨"t0", 0⟩))
          (DeletePerson (resState emptyStub (InitLedger emptyStub ⟨"t0", 0⟩)) ⟨"t1", 1⟩
            "person0")) "other" =
      getState (resState emptyStub (InitLedger emptyStub ⟨"t0", 0⟩)) "other") :=
  ⟨by decide, ops_frame (resState emptyStub (InitLedger emptyStub ⟨"t0", 0⟩)) ⟨"t1", 1⟩
    "person0" "s" "n" "sn" "c" "a" "ph" false "other" (by decide)⟩

/-- The key order `json.Marshal` emits for a `Person`: the struct's
declaration order under its `json:"..."` tags. -/
def personFieldOrder : List String :=
  ["id", "passport", "name", "surname", "city", "address", "phone", "married"]

/-- C6: for every record, the JSON object written to the world state has
its keys in exactly the order id, passport, name, surname, city,
address, phone, married. -/
theorem marshal_field_order (st : Stub) (tx : TxMeta)
    (id serial name surname city address phone : String) (married : Bool)
    (habs : getState st id = none) :
    (∀ p : Person, (marshalPerson p).map Prod.fst = personFieldOrder) ∧
    ∃ st' v,
      CreatePerson st tx id serial name surname city address phone married = .ok st' ∧
      getState st' id = some v ∧ v.map Prod.fst = personFieldOrder := by
  refine ⟨fun p => rfl,
    putState st tx id (marshalPerson ⟨id, serial, name, surname, city, address, phone, married⟩),
    marshalPerson ⟨id, serial, name, surname, city, address, phone, married⟩, ?_, ?_, rfl⟩
  · simp [CreatePerson, PersonExists, habs]
  · exact getState_putState_same ..

/-- Witness for C6 at a concrete creation on the empty world state. -/
theorem marshal_field_order_witness :
    getState emptyStub "p1" = none ∧
    ((∀ p : Person, (marshalPerson p).map Prod.fst = personFieldOrder) ∧
    ∃ st' v,
      CreatePerson emptyStub ⟨"tx0", 0⟩ "p1" "0001" "Ada" "Lovelace" "London"
        "Marylebone 1" "555" true = .ok st' ∧
      getState st' "p1" = some v ∧ v.map Prod.fst = personFieldOrder) :=
  ⟨rfl, marshal_field_order emptyStub ⟨"tx0", 0⟩ "p1" "0001" "Ada" "Lovelace" "London"
    "Marylebone 1" "555" true rfl⟩

/-- C8 counterexample: after a first `InitLedger` both seed ids exist,
yet a second `InitLedger` call succeeds instead of failing with a
duplicate-key error — `PutState` overwrites existing keys. -/
theorem init_ledger_reseed_counterexample :
    PersonExists (resState emptyStub (InitLedger emptyStub ⟨"t0", 0⟩)) "person0" = true ∧
    PersonExists (resState emptyStub (InitLedger emptyStub ⟨"t0", 0⟩)) "person1" = true ∧
    (InitLedger (resState emptyStub (InitLedger emptyStub ⟨"t0", 0⟩)) ⟨"t1", 1⟩).isOk = true :=
  ⟨rfl, rfl, rfl⟩

/-- C8 amended: `InitLedger` performs no existence check, and `PutState`
is an upsert, so re-seeding against any state — including one where the
seed ids still exist — succeeds, rewriting the two seed records rather
than raising a duplicate-key error. -/
theorem init_ledger_reseed (st : Stub) (tx : TxMeta) :
    ∃ st', InitLedger st tx = .ok st' ∧
      getState st' "person0" = some (marshalPerson person0) ∧
      getState st' "person1" = some (marshalPerson person1) := by
  refine ⟨_, rfl, ?_, ?_⟩
  · have h1 : getState (putState st tx person0.ID (marshalPerson person0)) "person0" =
        some (marshalPerson person0) := getState_putState_same ..
    calc getState (putState (putState st tx person0.ID (marshalPerson person0)) tx
          person1.ID (marshalPerson person1)) "person0"
        = getState (putState st tx person0.ID (marshalPerson person0)) "person0" :=
          getState_putState_ne _ _ _ _ _ (by decide)
      _ = some (marshalPerson person0) := h1
  · exact getState_putState_same ..

/-- A concrete run: create `"a"`, delete it, create it again.  The id
presently exists, but its change log holds a deletion entry. -/
def deleteRecreateScenario : Except String Stub :=
  (CreatePerson emptyStub ⟨"t0", 0⟩ "a" "s" "n" "sn" "c" "ad" "ph" true).bind fun st1 =>
    (DeletePerson st1 ⟨"t1", 1⟩ "a").bind fun st2 =>
      CreatePerson st2 ⟨"t2", 2⟩ "a" "s2" "n2" "sn2" "c2" "ad2" "ph2" false

/-- C7 counterexample: after create–delete–recreate of id `"a"` the id
exists, yet `GetPersonHistory` fails with the unmarshal error on the
deletion entry instead of succeeding with an absent-record entry. -/
theorem history_delete_entry_counterexample :
    deleteRecreateScenario.isOk = true ∧
    PersonExists (resState emptyStub deleteRecreateScenario) "a" = true ∧
    GetPersonHistory (resState emptyStub deleteRecreateScenario) "a" =
      .error "unexpected end of JSON input" :=
  ⟨rfl, rfl, rfl⟩

/-- Helper for C7: mapping the history loop body over a change log that
contains a valueless (deletion) entry always produces an error. -/
theorem mapM_error_of_delete {l : List HistEntry} {e : HistEntry}
    (he : e ∈ l) (hv : e.value = none) :
    ∃ msg, l.mapM histEntryToUpdate = .error msg := by
  induction l with
  | nil => cases he
  | cons a rest ih =>
    rw [List.mapM_cons]
    rcases List.mem_cons.mp he with h | h
    · subst h
      have ha : histEntryToUpdate e = .error "unexpected end of JSON input" := by
        unfold histEntryToUpdate
        rw [hv]
      rw [ha]
      exact ⟨"unexpected end of JSON input", rfl⟩
    · cases ha : histEntryToUpdate a with
      | error msg => exact ⟨msg, rfl⟩
      | ok u =>
        obtain ⟨msg, hmsg⟩ := ih h
        refine ⟨msg, ?_⟩
        show (rest.mapM histEntryToUpdate >>= fun bs => pure (u :: bs)) = .error msg
        rw [hmsg]
        rfl

/-- C7 amended: whenever the change log of an id contains a deletion
entry, `GetPersonHistory` fails (either with the not-found error or, if
the id presently exists, with the unmarshal error raised on the
valueless deletion entry); it never represents the deletion as an entry
with an absent record, since `Update.Data` cannot be absent. -/
theorem history_delete_entry_fails (st : Stub) (id : String) (e : HistEntry)
    (he : e ∈ histOf st.hist id) (hv : e.value = none) :
    ∃ msg, GetPersonHistory st id = .error msg := by
  unfold GetPersonHistory
  by_cases hex : PersonExists st id
  · rw [if_pos hex]
    exact mapM_error_of_delete he hv
  · rw [if_neg hex]
    exact ⟨_, rfl⟩

/-- Witness for the C7 amended theorem on the create–delete–recreate run. -/
theorem history_delete_entry_fails_witness :
    (⟨"t1", 1, none, true⟩ : HistEntry) ∈
        histOf (resState emptyStub deleteRecreateScenario).hist "a" ∧
    (⟨"t1", 1, none, true⟩ : HistEntry).value = none ∧
    ∃ msg, GetPersonHistory (resState emptyStub deleteRecreateScenario) "a" = .error msg :=
  ⟨by decide, rfl,
    history_delete_entry_fails (resState emptyStub deleteRecreateScenario) "a"
      ⟨"t1", 1, none, true⟩ (by decide) rfl⟩

/-- Invoking `CreatePerson` with the fields of a record, as the gateway
client does with positional string arguments. -/
def createRec (st : Stub) (tx : TxMeta) (r : Person) : Except String Stub :=
  CreatePerson st tx r.ID r.Serial r.Name r.Surname r.City r.Address r.Phone r.Married

/-- A sequence of `CreatePerson` transactions, each committed before the
next is submitted; the first failure aborts the run. -/
def createAll (st : Stub) : List (TxMeta × Person) → Except String Stub
  | [] => .ok st
  | (tx, r) :: rest =>
    match createRec st tx r with
    | .error e => .error e
    | .ok st' => createAll st' rest

theorem putWorld_of_find?_none {w : List (String × Json)} {k : String} (v : Json)
    (h : w.find? (fun kv => kv.1 == k) = none) : putWorld w k v = w ++ [(k, v)] := by
  induction w with
  | nil => rfl
  | cons a rest ih =>
    obtain ⟨ka, va⟩ := a
    by_cases hka : ka = k
    · rw [List.find?, str_beq_true hka] at h
      cases h
    · rw [List.find?, str_beq_false hka] at h
      have hne : ¬ k = ka := fun hh => hka hh.symm
      simp only [putWorld]
      rw [if_neg hne, ih h, List.cons_append]

theorem find?_append_of_none {α : Type} {l₁ l₂ : List α} {p : α → Bool}
    (h : l₁.find? p = none) : (l₁ ++ l₂).find? p = l₂.find? p := by
  induction l₁ with
  | nil => rfl
  | cons a rest ih =>
    rw [List.find?] at h
    cases hb : p a with
    | true => rw [hb] at h; cases h
    | false =>
      rw [hb] at h
      rw [List.cons_append, List.find?, hb, ih h]

/-- Running `createAll` on fresh, pairwise-distinct ids succeeds and
appends the marshalled records to the world state in creation order. -/
theorem createAll_spec (inputs : List (TxMeta × Person)) :
    ∀ st : Stub,
    (inputs.map (fun u => u.2.ID)).Nodup →
    (∀ u ∈ inputs, st.world.find? (fun kv => kv.1 == u.2.ID) = none) →
    ∃ st', createAll st inputs = .ok st' ∧
      st'.world = st.world ++ inputs.map (fun u => (u.2.ID, marshalPerson u.2)) := by
  induction inputs with
  | nil =>
    intro st _ _
    exact ⟨st, rfl, by simp⟩
  | cons u rest ih =>
    intro st hnodup habs
    obtain ⟨tx, r⟩ := u
    have habs0 : st.world.find? (fun kv => kv.1 == r.ID) = none :=
      habs (tx, r) (List.mem_cons_self _ _)
    have hex : PersonExists st r.ID = false := by
      simp [PersonExists, getState, habs0]
    have hstep : createRec st tx r = .ok (putState st tx r.ID (marshalPerson r)) := by
      simp [createRec, CreatePerson, hex]
    have hworld1 : (putState st tx r.ID (marshalPerson r)).world =
        st.world ++ [(r.ID, marshalPerson r)] := by
      simpa [putState] using putWorld_of_find?_none (marshalPerson r) habs0
    have hnodup' : (rest.map (fun u => u.2.ID)).Nodup := (List.nodup_cons.mp hnodup).2
    have hhead : r.ID ∉ rest.map (fun u => u.2.ID) := (List.nodup_cons.mp hnodup).1
    have habs' : ∀ u ∈ rest,
        (putState st tx r.ID (marshalPerson r)).world.find? (fun kv => kv.1 == u.2.ID) = none := by
      intro u hu
      rw [hworld1, find?_append_of_none (habs u (List.mem_cons_of_mem _ hu)), List.find?]
      have hne : r.ID ≠ u.2.ID := by
        intro hh
        exact hhead (hh ▸ List.mem_map_of_mem (fun u => u.2.ID) hu)
      rw [str_beq_false hne]
      rfl
    obtain ⟨st', hrun, hworld⟩ := ih (putState st tx r.ID (marshalPerson r)) hnodup' habs'
    refine ⟨st', ?_, ?_⟩
    · simp only [createAll]
      rw [hstep]
      exact hrun
    · rw [hworld, hworld1, List.append_assoc, List.map_cons]
      rfl

/-- Unmarshalling the marshalled records of a creation run recovers the
records, in order. -/
theorem mapM_unmarshal_marshal (l : List (TxMeta × Person)) :
    (l.map (fun u => (u.2.ID, marshalPerson u.2))).mapM (fun kv => unmarshalPerson kv.2) =
      some (l.map (fun u => u.2)) := by
  induction l with
  | nil => rfl
  | cons u rest ih =>
    rw [List.map_cons, List.mapM_cons]
    show ((rest.map (fun u => (u.2.ID, marshalPerson u.2))).mapM
        (fun kv => unmarshalPerson kv.2) >>= fun bs => pure (u.2 :: bs)) =
      some (u.2 :: rest.map (fun u => u.2))
    rw [ih]
    rfl

theorem getAll_of_world (st : Stub) (l : List Person)
    (h : st.world.mapM (fun kv => unmarshalPerson kv.2) = some l) :
    GetAllPersons st = .ok l := by
  unfold GetAllPersons
  rw [h]

/-- C5: `GetAllPersons` on the empty world state returns the empty
sequence (not an error), and after creating any list of records with
pairwise-distinct ids it returns exactly those records, each equal to
its creation input, with no duplicates. -/
theorem get_all_persons_after_creates (inputs : List (TxMeta × Person))
    (hids : (inputs.map (fun u => u.2.ID)).Nodup) :
    GetAllPersons emptyStub = .ok [] ∧
    ∃ st, createAll emptyStub inputs = .ok st ∧
      GetAllPersons st = .ok (inputs.map (fun u => u.2)) ∧
      (inputs.map (fun u => u.2)).length = inputs.length ∧
      (inputs.map (fun u => u.2)).Nodup := by
  refine ⟨rfl, ?_⟩
  obtain ⟨st, hrun, hworld⟩ := createAll_spec inputs emptyStub hids (fun u _ => rfl)
  refine ⟨st, hrun, ?_, by simp, ?_⟩
  · refine getAll_of_world st _ ?_
    rw [hworld]
    exact mapM_unmarshal_marshal inputs
  · have hmap : (inputs.map (fun u => u.2)).map Person.ID = inputs.map (fun u => u.2.ID) := by
      rw [List.map_map]
      rfl
    exact List.Nodup.of_map Person.ID (hmap.symm ▸ hids)

/-- Witness for C5: two creations with distinct ids on the empty state. -/
theorem get_all_persons_after_creates_witness :
    (([(⟨"t0", 0⟩, ⟨"a", "s", "n", "sn", "c", "ad", "ph", true⟩),
       (⟨"t1", 1⟩, ⟨"b", "s2", "n2", "sn2", "c2", "ad2", "ph2", false⟩)] :
        List (TxMeta × Person)).map (fun u => u.2.ID)).Nodup ∧
    (GetAllPersons emptyStub = .ok [] ∧
    ∃ st, createAll emptyStub
        [(⟨"t0", 0⟩, ⟨"a", "s", "n", "sn", "c", "ad", "ph", true⟩),
         (⟨"t1", 1⟩, ⟨"b", "s2", "n2", "sn2", "c2", "ad2", "ph2", false⟩)] = .ok st ∧
      GetAllPersons st = .ok
        (([(⟨"t0", 0⟩, ⟨"a", "s", "n", "sn", "c", "ad", "ph", true⟩),
           (⟨"t1", 1⟩, ⟨"b", "s2", "n2", "sn2", "c2", "ad2", "ph2", false⟩)] :
            List (TxMeta × Person)).map (fun u => u.2)) ∧
      (([(⟨"t0", 0⟩, ⟨"a", "s", "n", "sn", "c", "ad", "ph", true⟩),
         (⟨"t1", 1⟩, ⟨"b", "s2", "n2", "sn2", "c2", "ad2", "ph2", false⟩)] :
          List (TxMeta × Person)).map (fun u => u.2)).length = 2 ∧
      (([(⟨"t0", 0⟩, ⟨"a", "s", "n", "sn", "c", "ad", "ph", true⟩),
         (⟨"t1", 1⟩, ⟨"b", "s2", "n2", "sn2", "c2", "ad2", "ph2", false⟩)] :
          List (TxMeta × Person)).map (fun u => u.2)).Nodup) :=
  ⟨by decide,
    get_all_persons_after_creates
      [(⟨"t0", 0⟩, ⟨"a", "s", "n", "sn", "c", "ad", "ph", true⟩),
       (⟨"t1", 1⟩, ⟨"b", "s2", "n2", "sn2", "c2", "ad2", "ph2", false⟩)] (by decide)⟩

/-- Invoking `UpdatePerson` with the fields of a record, as the gateway
client does with positional string arguments. -/
def updateRec (st : Stub) (tx : TxMeta) (r : Person) : Except String Stub :=
  UpdatePerson st tx r.ID r.Serial r.Name r.Surname r.City r.Address r.Phone r.Married

/-- A sequence of `UpdatePerson` transactions, each committed before the
next is submitted; the first failure aborts the run. -/
def applyUpdates (st : Stub) : List (TxMeta × Person) → Except String Stub
  | [] => .ok st
  | (tx, r) :: rest =>
    match updateRec st tx r with
    | .error e => .error e
    | .ok st' => applyUpdates st' rest

/-- Running `applyUpdates` against a present id succeeds, keeps the id
present, and appends one change-log entry per update, holding the
marshalled record of that update, in order. -/
theorem applyUpdates_spec (ups : List (TxMeta × Person)) :
    ∀ (st : Stub) (id : String) (w : Json),
    getState st id = some w →
    (∀ u ∈ ups, u.2.ID = id) →
    ∃ st' w', applyUpdates st ups = .ok st' ∧ getState st' id = some w' ∧
      histOf st'.hist id = histOf st.hist id ++
        ups.map (fun u =>
          (⟨u.1.txId, u.1.timestamp, some (marshalPerson u.2), false⟩ : HistEntry)) := by
  induction ups with
  | nil =>
    intro st id w hw _
    exact ⟨st, w, rfl, hw, by simp⟩
  | cons u rest ih =>
    intro st id w hw hids
    obtain ⟨tx, r⟩ := u
    have hid : r.ID = id := hids (tx, r) (List.mem_cons_self _ _)
    subst hid
    have hex : PersonExists st r.ID = true := by
      simp [PersonExists, hw]
    have hstep : updateRec st tx r = .ok (putState st tx r.ID (marshalPerson r)) := by
      simp [updateRec, UpdatePerson, hex]
    obtain ⟨st', w', hrun, hw', hhist⟩ :=
      ih (putState st tx r.ID (marshalPerson r)) r.ID (marshalPerson r)
        (getState_putState_same ..)
        (fun u hu => hids u (List.mem_cons_of_mem _ hu))
    refine ⟨st', w', ?_, hw', ?_⟩
    · simp only [applyUpdates]
      rw [hstep]
      exact hrun
    · rw [hhist, histOf_putState_same, List.append_assoc, List.map_cons]
      rfl

/-- Converting change-log entries that hold marshalled records yields the
corresponding `Update` values, in order. -/
theorem mapM_histEntryToUpdate_puts (l : List (TxMeta × Person)) :
    (l.map (fun u =>
        (⟨u.1.txId, u.1.timestamp, some (marshalPerson u.2), false⟩ : HistEntry))).mapM
      histEntryToUpdate =
    .ok (l.map (fun u => (⟨u.1.txId, u.1.timestamp, u.2⟩ : Update))) := by
  induction l with
  | nil => rfl
  | cons u rest ih =>
    rw [List.map_cons, List.mapM_cons]
    show ((rest.map (fun u =>
        (⟨u.1.txId, u.1.timestamp, some (marshalPerson u.2), false⟩ : HistEntry))).mapM
          histEntryToUpdate >>=
        fun bs => pure ((⟨u.1.txId, u.1.timestamp, u.2⟩ : Update) :: bs)) =
      .ok ((⟨u.1.txId, u.1.timestamp, u.2⟩ : Update) ::
        rest.map (fun u => (⟨u.1.txId, u.1.timestamp, u.2⟩ : Update)))
    rw [ih]
    rfl

/-- C4: creating a fresh id and then updating it `k` times yields a
`GetPersonHistory` result of exactly `k + 1` entries, oldest to newest —
the creation first, then the updates in order — each entry carrying the
transaction's id and timestamp and the record value effective after that
transaction; when the transactions' timestamps are non-decreasing, so
are the entries'. -/
theorem history_after_updates (st0 : Stub) (tx0 : TxMeta) (p : Person)
    (ups : List (TxMeta × Person))
    (habs : getState st0 p.ID = none)
    (hfresh : histOf st0.hist p.ID = [])
    (hids : ∀ u ∈ ups, u.2.ID = p.ID)
    (hts : List.Chain' (fun a b => a ≤ b)
      (tx0.timestamp :: ups.map (fun u => u.1.timestamp))) :
    ∃ st1 st2,
      createRec st0 tx0 p = .ok st1 ∧
      applyUpdates st1 ups = .ok st2 ∧
      GetPersonHistory st2 p.ID = .ok
        ((⟨tx0.txId, tx0.timestamp, p⟩ : Update) ::
          ups.map (fun u => (⟨u.1.txId, u.1.timestamp, u.2⟩ : Update))) ∧
      ((⟨tx0.txId, tx0.timestamp, p⟩ : Update) ::
          ups.map (fun u => (⟨u.1.txId, u.1.timestamp, u.2⟩ : Update))).length =
        ups.length + 1 ∧
      List.Chain' (fun a b : Update => a.Timestamp ≤ b.Timestamp)
        ((⟨tx0.txId, tx0.timestamp, p⟩ : Update) ::
          ups.map (fun u => (⟨u.1.txId, u.1.timestamp, u.2⟩ : Update))) := by
  have hex0 : PersonExists st0 p.ID = false := by
    simp [PersonExists, habs]
  have hstep : createRec st0 tx0 p = .ok (putState st0 tx0 p.ID (marshalPerson p)) := by
    simp [createRec, CreatePerson, hex0]
  obtain ⟨st2, w', hrun, hw', hhist⟩ :=
    applyUpdates_spec ups (putState st0 tx0 p.ID (marshalPerson p)) p.ID (marshalPerson p)
      (getState_putState_same ..) hids
  have hex2 : PersonExists st2 p.ID = true := by
    simp [PersonExists, hw']
  have hhist2 : histOf st2.hist p.ID =
      (⟨tx0.txId, tx0.timestamp, some (marshalPerson p), false⟩ : HistEntry) ::
        ups.map (fun u =>
          (⟨u.1.txId, u.1.timestamp, some (marshalPerson u.2), false⟩ : HistEntry)) := by
    rw [hhist, histOf_putState_same, hfresh]
    rfl
  refine ⟨putState st0 tx0 p.ID (marshalPerson p), st2, hstep, hrun, ?_, by simp, ?_⟩
  · unfold GetPersonHistory
    rw [if_pos hex2, hhist2, List.mapM_cons]
    show ((ups.map (fun u =>
        (⟨u.1.txId, u.1.timestamp, some (marshalPerson u.2), false⟩ : HistEntry))).mapM
          histEntryToUpdate >>=
        fun bs => pure ((⟨tx0.txId, tx0.timestamp, p⟩ : Update) :: bs)) = _
    rw [mapM_histEntryToUpdate_puts]
    rfl
  · have hmap : ((⟨tx0.txId, tx0.timestamp, p⟩ : Update) ::
        ups.map (fun u => (⟨u.1.txId, u.1.timestamp, u.2⟩ : Update))).map Update.Timestamp =
      tx0.timestamp :: ups.map (fun u => u.1.timestamp) := by
      rw [List.map_cons, List.map_map]
      rfl
    have := hmap.symm ▸ hts
    exact (List.chain'_map Update.Timestamp).mp this

/-- Witness for C4: one creation and two updates of id `"a"` on the
empty world state. -/
theorem history_after_updates_witness :
    getState emptyStub ("a" : String) = none ∧
    histOf emptyStub.hist "a" = [] ∧
    (∀ u ∈ ([(⟨"t1", 1⟩, ⟨"a", "s1", "n", "sn", "c", "ad", "ph", true⟩),
             (⟨"t2", 2⟩, ⟨"a", "s2", "n", "sn", "c", "ad", "ph", false⟩)] :
        List (TxMeta × Person)), u.2.ID = "a") ∧
    ∃ st1 st2,
      createRec emptyStub ⟨"t0", 0⟩ ⟨"a", "s0", "n", "sn", "c", "ad", "ph", true⟩ = .ok st1 ∧
      applyUpdates st1
        [(⟨"t1", 1⟩, ⟨"a", "s1", "n", "sn", "c", "ad", "ph", true⟩),
         (⟨"t2", 2⟩, ⟨"a", "s2", "n", "sn", "c", "ad", "ph", false⟩)] = .ok st2 ∧
      GetPersonHistory st2 "a" = .ok
        [⟨"t0", 0, ⟨"a", "s0", "n", "sn", "c", "ad", "ph", true⟩⟩,
         ⟨"t1", 1, ⟨"a", "s1", "n", "sn", "c", "ad", "ph", true⟩⟩,
         ⟨"t2", 2, ⟨"a", "s2", "n", "sn", "c", "ad", "ph", false⟩⟩] ∧
      ([⟨"t0", 0, ⟨"a", "s0", "n", "sn", "c", "ad", "ph", true⟩⟩,
        ⟨"t1", 1, ⟨"a", "s1", "n", "sn", "c", "ad", "ph", true⟩⟩,
        ⟨"t2", 2, ⟨"a", "s2", "n", "sn", "c", "ad", "ph", false⟩⟩] : List Update).length = 2 + 1 ∧
      List.Chain' (fun a b : Update => a.Timestamp ≤ b.Timestamp)
        [⟨"t0", 0, ⟨"a", "s0", "n", "sn", "c", "ad", "ph", true⟩⟩,
         ⟨"t1", 1, ⟨"a", "s1", "n", "sn", "c", "ad", "ph", true⟩⟩,
         ⟨"t2", 2, ⟨"a", "s2", "n", "sn", "c", "ad", "ph", false⟩⟩] :=
  ⟨rfl, rfl, by decide,
    history_after_updates emptyStub ⟨"t0", 0⟩ ⟨"a", "s0", "n", "sn", "c", "ad", "ph", true⟩
      [(⟨"t1", 1⟩, ⟨"a", "s1", "n", "sn", "c", "ad", "ph", true⟩),
       (⟨"t2", 2⟩, ⟨"a", "s2", "n", "sn", "c", "ad", "ph", false⟩)]
      rfl rfl (by decide) (by simp [List.chain'_cons])⟩

/-- A state-changing contract invocation together with the transaction
metadata the platform assigns to it. -/
inductive LOp where
  | opInit (tx : TxMeta)
  | opCreate (tx : TxMeta) (id serial name surname city address phone : String)
      (married : Bool)
  | opUpdate (tx : TxMeta) (id serial name surname city address phone : String)
      (married : Bool)
  | opDelete (tx : TxMeta) (id : String)
deriving DecidableEq, Repr

/-- Committing one invocation: on success the platform installs the new
world state, on failure the transaction leaves it untouched. -/
def execOp (st : Stub) : LOp → Stub
  | .opInit tx => resState st (InitLedger st tx)
  | .opCreate tx id serial name surname city address phone married =>
      resState st (CreatePerson st tx id serial name surname city address phone married)
  | .opUpdate tx id serial name surname city address phone married =>
      resState st (UpdatePerson st tx id serial name surname city address phone married)
  | .opDelete tx id => resState st (DeletePerson st tx id)

/-- Committing a sequence of invocations in order. -/
def execOps (st : Stub) (ops : List LOp) : Stub :=
  ops.foldl execOp st

/-- Every stored value deserializes to a record whose `ID` equals the
world-state key it is stored under. -/
def WorldKeyed (w : List (String × Json)) : Prop :=
  ∀ kv ∈ w, ∃ p : Person, unmarshalPerson kv.2 = some p ∧ p.ID = kv.1

theorem mem_putWorld {w : List (String × Json)} {k : String} {v : Json}
    {kv : String × Json} (h : kv ∈ putWorld w k v) : kv = (k, v) ∨ kv ∈ w := by
  induction w with
  | nil =>
    simp only [putWorld] at h
    exact Or.inl (List.mem_singleton.mp h)
  | cons a rest ih =>
    obtain ⟨ka, va⟩ := a
    simp only [putWorld] at h
    by_cases hka : k = ka
    · rw [if_pos hka] at h
      rcases List.mem_cons.mp h with h' | h'
      · exact Or.inl h'
      · exact Or.inr (List.mem_cons_of_mem _ h')
    · rw [if_neg hka] at h
      rcases List.mem_cons.mp h with h' | h'
      · exact Or.inr (h' ▸ List.mem_cons_self _ _)
      · rcases ih h' with h'' | h''
        · exact Or.inl h''
        · exact Or.inr (List.mem_cons_of_mem _ h'')

theorem worldKeyed_putState {st : Stub} (tx : TxMeta) {p : Person}
    (h : WorldKeyed st.world) :
    WorldKeyed (putState st tx p.ID (marshalPerson p)).world := by
  intro kv hkv
  rcases mem_putWorld hkv with h' | h'
  · exact ⟨p, by rw [h']; exact ⟨unmarshal_marshal p, rfl⟩⟩
  · exact h kv h'

theorem worldKeyed_delState {st : Stub} (tx : TxMeta) (k : String)
    (h : WorldKeyed st.world) : WorldKeyed (delState st tx k).world := by
  intro kv hkv
  exact h kv (List.mem_of_mem_filter hkv)

/-- One committed invocation preserves the key-equals-ID invariant. -/
theorem execOp_worldKeyed (st : Stub) (op : LOp) (h : WorldKeyed st.world) :
    WorldKeyed (execOp st op).world := by
  cases op with
  | opInit tx =>
    show WorldKeyed (resState st (InitLedger st tx)).world
    have h1 : WorldKeyed (putState st tx person0.ID (marshalPerson person0)).world :=
      worldKeyed_putState tx h
    exact worldKeyed_putState tx h1
  | opCreate tx id serial name surname city address phone married =>
    show WorldKeyed
      (resState st (CreatePerson st tx id serial name surname city address phone married)).world
    unfold CreatePerson
    by_cases hex : PersonExists st id
    · rw [if_pos hex]
      exact h
    · rw [if_neg hex]
      exact worldKeyed_putState tx
        (p := ⟨id, serial, name, surname, city, address, phone, married⟩) h
  | opUpdate tx id serial name surname city address phone married =>
    show WorldKeyed
      (resState st (UpdatePerson st tx id serial name surname city address phone married)).world
    unfold UpdatePerson
    by_cases hex : PersonExists st id
    · rw [if_pos hex]
      exact worldKeyed_putState tx
        (p := ⟨id, serial, name, surname, city, address, phone, married⟩) h
    · rw [if_neg hex]
      exact h
  | opDelete tx id =>
    show WorldKeyed (resState st (DeletePerson st tx id)).world
    unfold DeletePerson
    by_cases hex : PersonExists st id
    · rw [if_pos hex]
      exact worldKeyed_delState tx id h
    · rw [if_neg hex]
      exact h

theorem execOps_worldKeyed (ops : List LOp) :
    ∀ st : Stub, WorldKeyed st.world → WorldKeyed (execOps st ops).world := by
  induction ops with
  | nil => exact fun st h => h
  | cons op rest ih =>
    intro st h
    exact ih (execOp st op) (execOp_worldKeyed st op h)

/-- C10: starting from the empty world state, after any sequence of
`InitLedger`, `CreatePerson`, `UpdatePerson` and `DeletePerson`
invocations, every stored value deserializes to a record whose `ID`
field equals the key it is stored under. -/
theorem world_values_keyed_by_id (ops : List LOp) (kv : String × Json)
    (hkv : kv ∈ (execOps emptyStub ops).world) :
    ∃ p : Person, unmarshalPerson kv.2 = some p ∧ p.ID = kv.1 :=
  execOps_worldKeyed ops emptyStub (fun _ h => absurd h (List.not_mem_nil _)) kv hkv

/-- Witness for C10: a create followed by an update, checked on the
stored entry of id `"a"`. -/
theorem world_values_keyed_by_id_witness :
    ("a", marshalPerson ⟨"a", "s1", "n", "sn", "c", "ad", "ph", false⟩) ∈
      (execOps emptyStub
        [.opCreate ⟨"t0", 0⟩ "a" "s0" "n" "sn" "c" "ad" "ph" true,
         .opUpdate ⟨"t1", 1⟩ "a" "s1" "n" "sn" "c" "ad" "ph" false]).world ∧
    ∃ p : Person,
      unmarshalPerson ("a", marshalPerson ⟨"a", "s1", "n", "sn", "c", "ad", "ph", false⟩).2 =
        some p ∧
      p.ID = ("a", marshalPerson ⟨"a", "s1", "n", "sn", "c", "ad", "ph", false⟩).1 :=
  ⟨by decide,
    world_values_keyed_by_id
      [.opCreate ⟨"t0", 0⟩ "a" "s0" "n" "sn" "c" "ad" "ph" true,
       .opUpdate ⟨"t1", 1⟩ "a" "s1" "n" "sn" "c" "ad" "ph" false]
      ("a", marshalPerson ⟨"a", "s1", "n", "sn", "c", "ad", "ph", false⟩) (by decide)⟩
